import Mathlib

/-!
Verification of the friendo image-capture component (`ImageUpload` in the
frontend source) and the dev-time API response logger
(`frontend/vite-api-logger.js`).

The JavaScript is embedded shallowly:

* a `File` becomes `FileData` (its byte content and declared MIME type);
* `FileReader.readAsDataURL` becomes `dataURL`, producing
  `data:<type>;base64,<payload>` over an executable base64 encoder;
* `fileToBase64` mirrors `reader.result.split(',')[1]`;
* the React component state (`preview`, `imageData`, `loading`, the two
  input refs) becomes `UploadState`; the asynchronous encodes started by
  `processImage` become a multiset of in-flight `EncTask`s inside `Sys`,
  and the event-loop interleaving becomes an explicit event list folded by
  `step` (a `complete i` event delivers the callback of in-flight task
  number `i`, so completions may arrive in any order, as in the browser);
* the logger middleware's wrapped `res.write` / `res.end` become
  `wrappedWrite` / `wrappedEnd` over an abstract response that records the
  bytes actually delivered to the client.
-/

namespace Friendo

/-- A user-selected file: its raw byte content (each entry < 256) and its
declared MIME type (`File.type`, the empty string when absent). -/
structure FileData where
  content : List Nat
  type : String
deriving DecidableEq, Repr

/-- The transmittable payload built by `processImage`:
`{ base64: ..., mimeType: file.type || 'image/jpeg' }`. -/
structure Payload where
  base64 : List Char
  mimeType : String
deriving DecidableEq, Repr

/-- The base64 alphabet used by `btoa`/`readAsDataURL`. -/
def b64Alphabet : List Char :=
  "ABCDEFGHIJKLMNOPQRSTUVWXYZabcdefghijklmnopqrstuvwxyz0123456789+/".toList

/-- The character standing for a 6-bit group. -/
def sextetChar (n : Nat) : Char := b64Alphabet.getD n 'A'

/-- The 6-bit group a base64 character stands for. -/
def charSextet (c : Char) : Nat := (b64Alphabet.indexOf c)

/-- Base64 encoding of a byte list, with `=` padding, as produced by
`readAsDataURL` for the file's content. -/
def b64Encode : List Nat → List Char
  | [] => []
  | [b1] => [sextetChar (b1 / 4), sextetChar (b1 % 4 * 16), '=', '=']
  | [b1, b2] =>
      [sextetChar (b1 / 4), sextetChar (b1 % 4 * 16 + b2 / 16),
       sextetChar (b2 % 16 * 4), '=']
  | b1 :: b2 :: b3 :: rest =>
      sextetChar (b1 / 4) :: sextetChar (b1 % 4 * 16 + b2 / 16) ::
      sextetChar (b2 % 16 * 4 + b3 / 64) :: sextetChar (b3 % 64) ::
      b64Encode rest

/-- Modelled from the spec: standard base64 decoding (the repository ships
no decoder; the spec's testable property says the `data` field "decodes
back to the original byte content", so decoding is the reference inverse
of the encoding above). -/
def b64Decode : List Char → List Nat
  | c1 :: c2 :: c3 :: c4 :: rest =>
      if c3 = '=' then
        [charSextet c1 * 4 + charSextet c2 / 16]
      else if c4 = '=' then
        [charSextet c1 * 4 + charSextet c2 / 16,
         charSextet c2 % 16 * 16 + charSextet c3 / 4]
      else
        (charSextet c1 * 4 + charSextet c2 / 16) ::
        (charSextet c2 % 16 * 16 + charSextet c3 / 4) ::
        (charSextet c3 % 4 * 64 + charSextet c4) ::
        b64Decode rest
  | _ => []

/-- The string `reader.result` of `readAsDataURL`: a data URL whose header
ends at the first comma, followed by the raw base64 payload. -/
def dataURL (f : FileData) : List Char :=
  "data:".toList ++ f.type.toList ++ ";base64,".toList ++ b64Encode f.content

/-- JavaScript `String.prototype.split(',')` on a character list. -/
def splitComma : List Char → List (List Char)
  | [] => [[]]
  | c :: rest =>
      match splitComma rest with
      | [] => [[c]]
      | s :: ss => if c = ',' then [] :: s :: ss else (c :: s) :: ss

/-- `fileToBase64`: read the file as a data URL and keep
`reader.result.split(',')[1]`, dropping the data-URL header. -/
def fileToBase64 (f : FileData) : List Char :=
  (splitComma (dataURL f)).getD 1 []

/-- The pending payload stored by `processImage` after a successful encode:
`{ base64, mimeType: file.type || 'image/jpeg' }` (`||` takes the default
exactly when `file.type` is the empty string, the falsy case). -/
def mkPayload (f : FileData) : Payload :=
  { base64 := fileToBase64 f
    mimeType := if f.type = "" then "image/jpeg" else f.type }

/-! ### The Capture Controller (`ImageUpload`) -/

/-- The React component state of `ImageUpload`: the `preview` object-URL
(modelled as the file it references), the pending `imageData`, the
`loading` flag, and the `value` of the two file inputs. -/
structure UploadState where
  preview : Option FileData
  imageData : Option Payload
  loading : Bool
  fileInputVal : String
  cameraInputVal : String
deriving DecidableEq, Repr

/-- The initial render: both `useState(null)` slots empty, `loading`
false, both inputs empty. -/
def initState : UploadState :=
  { preview := none, imageData := none, loading := false
    fileInputVal := "", cameraInputVal := "" }

/-- One asynchronous `fileToBase64` call started by `processImage` and not
yet settled; `ok` records whether the read will succeed (`reader.onload`)
or fail (`reader.onerror`). -/
structure EncTask where
  file : FileData
  ok : Bool
deriving DecidableEq, Repr

/-- The component together with its event-loop environment: the visible
state, the in-flight encodes (in selection order), the files selected so
far (history, for stating invariants) and the `console.error` diagnostic
channel. -/
structure Sys where
  st : UploadState
  pending : List EncTask
  selected : List FileData
  diag : List String
deriving DecidableEq, Repr

/-- The system before any interaction. -/
def initSys : Sys := { st := initState, pending := [], selected := [], diag := [] }

/-- Event-loop events: `select f ok` is `processImage f` running up to the
`await` (set `loading`, set the preview, start the encode); `complete i`
delivers the callback of in-flight encode number `i` (completions may be
delivered in any order); `clear` is a click on the Remove button
(`handleClear`). -/
inductive Ev
  | select (f : FileData) (ok : Bool)
  | complete (i : Nat)
  | clear

/-- Resumption of `processImage` when its awaited encode settles: on
success the `try` block stores the payload, on failure the `catch` block
writes to `console.error` and stores nothing; the `finally` block clears
`loading` in both cases. -/
def applyCompletion (t : EncTask) (s : Sys) : Sys :=
  if t.ok then
    { s with st := { s.st with imageData := some (mkPayload t.file), loading := false } }
  else
    { s with st := { s.st with loading := false }
             diag := s.diag ++ ["Failed to process image:"] }

/-- One event-loop step from a system state. `select` appends a new
in-flight encode; `complete i` settles in-flight encode `i` and removes
it; `clear` nulls the preview, the payload and both input values
(`handleClear` touches neither `loading` nor the in-flight encodes). -/
def step (s : Sys) : Ev → Sys
  | .select f ok =>
      { st := { s.st with loading := true, preview := some f }
        pending := s.pending ++ [{ file := f, ok := ok }]
        selected := s.selected ++ [f]
        diag := s.diag }
  | .complete i =>
      if h : i < s.pending.length then
        let s' := applyCompletion s.pending[i] s
        { s' with pending := s.pending.eraseIdx i }
      else s
  | .clear =>
      { s with st := { s.st with preview := none, imageData := none
                                 fileInputVal := "", cameraInputVal := "" } }

/-- Run an event list from the initial system state. -/
def run (evs : List Ev) : Sys := evs.foldl step initSys

/-- The "Use This Photo" button: rendered only under
`preview && imageData` and carrying `disabled={loading}`. -/
def submitEnabled (st : UploadState) : Bool :=
  st.preview.isSome && st.imageData.isSome && !st.loading

/-- The Skip button is always rendered but carries `disabled={loading}`:
clicking is possible exactly when `loading` is false. -/
def skipAvailable (st : UploadState) : Bool := !st.loading

/-- Callback invocations observable outside the component. -/
inductive Call
  | submitCall (p : Payload)
  | skipCall
deriving DecidableEq, Repr

/-- Clicking the Skip button: a disabled button fires nothing; otherwise
`onClick={onSkip}` invokes `onSkip` once. -/
def skipClick (st : UploadState) : List Call :=
  if skipAvailable st then [Call.skipCall] else []

/-- `handleSubmit`: `if (imageData) { onSubmit(imageData) }`; it changes
no component state. -/
def confirmClick (st : UploadState) : UploadState × List Call :=
  match st.imageData with
  | some p => (st, [Call.submitCall p])
  | none => (st, [])

/-! ### The dev-time API response logger (`vite-api-logger.js`) -/

/-- The request data the middleware reads: `req.method` and `req.url`. -/
structure ReqInfo where
  method : String
  url : String
deriving DecidableEq, Repr

/-- The path allowlist and the `apiPaths.some(p => req.url?.startsWith(p))`
test deciding whether a request is intercepted. -/
def apiPaths : List String := ["/users", "/tasks", "/energy", "/api"]

/-- JavaScript `String.prototype.startsWith`, computed on the character
lists. -/
def jsStartsWith (s p : String) : Bool := p.toList.isPrefixOf s.toList

/-- Whether the middleware wraps this request's response. -/
def isApiCall (url : String) : Bool := apiPaths.any fun p => jsStartsWith url p

/-- The server response as the client observes it: the bytes delivered so
far, whether `end` has been called, and the status code. -/
structure Res where
  delivered : List Nat
  ended : Bool
  statusCode : Nat
deriving DecidableEq, Repr

/-- The original `res.write`: delivers the chunk's bytes (if a chunk was
passed) and returns a Boolean. -/
def origWrite (r : Res) (c : Option (List Nat)) : Res × Bool :=
  ({ r with delivered := r.delivered ++ c.getD [] }, true)

/-- The original `res.end`: delivers the final chunk (if any) and closes
the response. -/
def origEnd (r : Res) (c : Option (List Nat)) : Res :=
  { r with delivered := r.delivered ++ c.getD [], ended := true }

/-- One appended record of the log file: what `logToFile` persists for a
response (timestamps elided). -/
structure LogEntry where
  method : String
  url : String
  status : Nat
  body : List Nat
deriving DecidableEq, Repr

/-- The logger's private state: the `chunks` array captured so far, the
append-only `api-logs.txt` content, and the `console.error` channel. -/
structure LogState where
  chunks : List (List Nat)
  logFile : List LogEntry
  diag : List String
deriving DecidableEq, Repr

/-- The wrapped `res.write`: push a passed chunk onto `chunks`, then
forward the chunk to the original `write` and return its result. -/
def wrappedWrite (ls : LogState) (r : Res) (c : Option (List Nat)) :
    LogState × Res × Bool :=
  let ls' := match c with
    | some ch => { ls with chunks := ls.chunks ++ [ch] }
    | none => ls
  (ls', origWrite r c)

/-- The wrapped `res.end`: push a passed chunk, then inside `try` build the
entry from the concatenated chunks and append it to the log file —
`appendOk = false` models `fs.appendFileSync` throwing (e.g. an unwritable
path), in which case the `catch` writes to `console.error` instead — and
finally forward the same chunk to the original `end` and return its
result. -/
def wrappedEnd (ls : LogState) (r : Res) (c : Option (List Nat))
    (req : ReqInfo) (appendOk : Bool) : LogState × Res :=
  let ls1 := match c with
    | some ch => { ls with chunks := ls.chunks ++ [ch] }
    | none => ls
  let ls2 :=
    if appendOk then
      { ls1 with logFile := ls1.logFile ++
          [{ method := req.method, url := req.url, status := r.statusCode
             body := ls1.chunks.flatten }] }
    else
      { ls1 with diag := ls1.diag ++ ["Failed to log API response:"] }
  (ls2, origEnd r c)

/-- A client-visible action on the response stream. -/
inductive Act
  | writeA (c : Option (List Nat))
  | endA (c : Option (List Nat))

/-- Run a sequence of response actions through the original, unwrapped
response methods, collecting `write`'s return values. -/
def runOrigActs (r : Res) : List Act → Res × List Bool
  | [] => (r, [])
  | .writeA c :: rest =>
      let (r', b) := origWrite r c
      let (r'', bs) := runOrigActs r' rest
      (r'', b :: bs)
  | .endA c :: rest =>
      let (r'', bs) := runOrigActs (origEnd r c) rest
      (r'', bs)

/-- Run the same action sequence through the wrapped methods installed by
the middleware. -/
def runWrappedActs (ls : LogState) (r : Res) (req : ReqInfo) (appendOk : Bool) :
    List Act → LogState × Res × List Bool
  | [] => (ls, r, [])
  | .writeA c :: rest =>
      let (ls', r', b) := wrappedWrite ls r c
      let (ls'', r'', bs) := runWrappedActs ls' r' req appendOk rest
      (ls'', r'', b :: bs)
  | .endA c :: rest =>
      let (ls', r') := wrappedEnd ls r c req appendOk
      let (ls'', r'', bs) := runWrappedActs ls' r' req appendOk rest
      (ls'', r'', bs)

/-- The middleware: a request matching the allowlist gets the wrapped
methods; any other request is passed straight to `next()`, untouched. -/
def runRequest (req : ReqInfo) (ls : LogState) (r : Res) (appendOk : Bool)
    (acts : List Act) : LogState × Res × List Bool :=
  if isApiCall req.url then runWrappedActs ls r req appendOk acts
  else
    let (r', bs) := runOrigActs r acts
    (ls, r', bs)

/-! ### Concrete data and invariants used by the theorems -/

/-- A one-byte PNG-typed file, used as a concrete first selection. -/
def fileA : FileData := { content := [0], type := "image/png" }

/-- A one-byte WEBP-typed file, used as a concrete second selection. -/
def fileB : FileData := { content := [1], type := "image/webp" }

/-- Invariant of the capture controller maintained by every event: any
stored payload is the encode of some previously selected file, every
in-flight encode reads a previously selected file, and the `loading` flag
is only up while at least one encode is in flight. -/
def Inv (s : Sys) : Prop :=
  (∀ p, s.st.imageData = some p → ∃ f ∈ s.selected, p = mkPayload f) ∧
  (∀ t ∈ s.pending, t.file ∈ s.selected) ∧
  (s.st.loading = true → s.pending ≠ [])

/-! ## Theorems -/

/-! ### Base64 encoder facts -/

theorem sextetChar_mem (n : Nat) : sextetChar n ∈ b64Alphabet := by
  unfold sextetChar
  by_cases h : n < b64Alphabet.length
  · rw [List.getD_eq_getElem _ _ h]
    exact List.getElem_mem h
  · rw [List.getD_eq_default _ _ (Nat.le_of_not_lt h)]
    decide

theorem sextetChar_ne_pad (n : Nat) : sextetChar n ≠ '=' := by
  intro h
  have hm := sextetChar_mem n
  rw [h] at hm
  revert hm
  decide

theorem charSextet_sextetChar : ∀ n, n < 64 → charSextet (sextetChar n) = n := by
  decide

theorem b64_roundtrip :
    ∀ l : List Nat, (∀ b ∈ l, b < 256) → b64Decode (b64Encode l) = l
  | [] => fun _ => rfl
  | [b1] => fun h => by
      have hb1 : b1 < 256 := h b1 (by simp)
      simp only [b64Encode, b64Decode, sextetChar_ne_pad, eq_self_iff_true,
        if_true, if_false]
      rw [charSextet_sextetChar _ (by omega), charSextet_sextetChar _ (by omega)]
      simp only [List.cons.injEq, eq_self_iff_true, and_true]
      omega
  | [b1, b2] => fun h => by
      have hb1 : b1 < 256 := h b1 (by simp)
      have hb2 : b2 < 256 := h b2 (by simp)
      simp only [b64Encode, b64Decode, sextetChar_ne_pad, eq_self_iff_true,
        if_true, if_false]
      rw [charSextet_sextetChar _ (by omega), charSextet_sextetChar _ (by omega),
        charSextet_sextetChar _ (by omega)]
      simp only [List.cons.injEq, eq_self_iff_true, and_true]
      omega
  | b1 :: b2 :: b3 :: rest => fun h => by
      have hb1 : b1 < 256 := h b1 (by simp)
      have hb2 : b2 < 256 := h b2 (by simp)
      have hb3 : b3 < 256 := h b3 (by simp)
      have ih := b64_roundtrip rest fun b hb => h b (by simp [hb])
      simp only [b64Encode, b64Decode, sextetChar_ne_pad, eq_self_iff_true,
        if_true, if_false]
      rw [charSextet_sextetChar _ (by omega), charSextet_sextetChar _ (by omega),
        charSextet_sextetChar _ (by omega), charSextet_sextetChar _ (by omega), ih]
      simp only [List.cons.injEq, eq_self_iff_true, and_true]
      omega

theorem b64Encode_mem :
    ∀ l : List Nat, ∀ c ∈ b64Encode l, c ∈ b64Alphabet ∨ c = '='
  | [] => by simp [b64Encode]
  | [b1] => by
      simp only [b64Encode, List.mem_cons, List.not_mem_nil, or_false]
      rintro c (rfl | rfl | rfl | rfl) <;>
        first
          | exact Or.inl (sextetChar_mem _)
          | exact Or.inr rfl
  | [b1, b2] => by
      simp only [b64Encode, List.mem_cons, List.not_mem_nil, or_false]
      rintro c (rfl | rfl | rfl | rfl) <;>
        first
          | exact Or.inl (sextetChar_mem _)
          | exact Or.inr rfl
  | b1 :: b2 :: b3 :: rest => by
      simp only [b64Encode, List.mem_cons]
      rintro c (rfl | rfl | rfl | rfl | hc)
      · exact Or.inl (sextetChar_mem _)
      · exact Or.inl (sextetChar_mem _)
      · exact Or.inl (sextetChar_mem _)
      · exact Or.inl (sextetChar_mem _)
      · exact b64Encode_mem rest c hc

theorem comma_not_mem_b64Encode (l : List Nat) : ',' ∉ b64Encode l := by
  intro h
  rcases b64Encode_mem l ',' h with hm | hm
  · revert hm; decide
  · exact absurd hm (by decide)

theorem splitComma_of_not_mem (l : List Char) (h : ',' ∉ l) :
    splitComma l = [l] := by
  induction l with
  | nil => rfl
  | cons c rest ih =>
      have hc : c ≠ ',' := fun hc => h (hc ▸ List.mem_cons_self c rest)
      have hr : ',' ∉ rest := fun hr => h (List.mem_cons_of_mem c hr)
      simp only [splitComma, ih hr]
      rw [if_neg hc]

theorem splitComma_header (a b : List Char) (ha : ',' ∉ a) (hb : ',' ∉ b) :
    splitComma (a ++ ',' :: b) = [a, b] := by
  induction a with
  | nil =>
      simp [List.nil_append, splitComma, splitComma_of_not_mem b hb]
  | cons c rest ih =>
      have hc : c ≠ ',' := fun hc => ha (hc ▸ List.mem_cons_self c rest)
      have hr : ',' ∉ rest := fun hr => ha (List.mem_cons_of_mem c hr)
      simp only [List.cons_append, splitComma, List.append_eq, ih hr]
      rw [if_neg hc]

theorem fileToBase64_eq (f : FileData) (hm : ',' ∉ f.type.toList) :
    fileToBase64 f = b64Encode f.content := by
  unfold fileToBase64 dataURL
  have hshape :
      "data:".toList ++ f.type.toList ++ ";base64,".toList ++ b64Encode f.content =
        ("data:".toList ++ f.type.toList ++ ";base64".toList) ++
          ',' :: b64Encode f.content := by
    simp only [List.append_assoc, List.cons_append, List.nil_append]
    rfl
  rw [hshape, splitComma_header]
  · rfl
  · intro hmem
    rcases List.mem_append.mp hmem with hmem | hmem
    · rcases List.mem_append.mp hmem with hmem | hmem
      · revert hmem; decide
      · exact hm hmem
    · revert hmem; decide
  · exact comma_not_mem_b64Encode f.content

/-- C6: for every file whose read succeeds, `fileToBase64` returns exactly
the raw base64 encoding of the file's byte content — the data-URL header
is stripped entirely, every remaining character is a base64-alphabet
character or padding, and decoding recovers the original bytes. -/
theorem fileToBase64_raw_roundtrip (f : FileData)
    (hb : ∀ b ∈ f.content, b < 256) (hm : ',' ∉ f.type.toList) :
    fileToBase64 f = b64Encode f.content ∧
    b64Decode (fileToBase64 f) = f.content ∧
    ∀ c ∈ fileToBase64 f, c ∈ b64Alphabet ∨ c = '=' := by
  have he := fileToBase64_eq f hm
  refine ⟨he, ?_, ?_⟩
  · rw [he]
    exact b64_roundtrip f.content hb
  · rw [he]
    exact b64Encode_mem f.content

/-- Witness for C6 at the two-byte file `[72, 105]` of type `image/png`. -/
theorem fileToBase64_raw_roundtrip_witness :
    fileToBase64 { content := [72, 105], type := "image/png" } =
      b64Encode [72, 105] ∧
    b64Decode (fileToBase64 { content := [72, 105], type := "image/png" }) =
      [72, 105] := by
  have h := fileToBase64_raw_roundtrip { content := [72, 105], type := "image/png" }
    (by decide) (by decide)
  exact ⟨h.1, h.2.1⟩

/-! ### Reachability invariants of the capture controller -/

theorem inv_initSys : Inv initSys := by
  refine ⟨?_, ?_, ?_⟩ <;> simp [Inv, initSys, initState]

theorem applyCompletion_selected (t : EncTask) (s : Sys) :
    (applyCompletion t s).selected = s.selected := by
  unfold applyCompletion
  split <;> rfl

theorem inv_step (s : Sys) (e : Ev) (hs : Inv s) : Inv (step s e) := by
  obtain ⟨h1, h2, h3⟩ := hs
  cases e with
  | select f ok =>
      refine ⟨?_, ?_, ?_⟩
      · intro p hp
        simp only [step] at hp
        rcases h1 p hp with ⟨g, hg, rfl⟩
        exact ⟨g, List.mem_append_left _ hg, rfl⟩
      · intro t ht
        simp only [step] at ht
        rcases List.mem_append.mp ht with ht | ht
        · exact List.mem_append_left _ (h2 t ht)
        · rcases List.mem_singleton.mp ht with rfl
          exact List.mem_append_right _ (List.mem_singleton.mpr rfl)
      · intro _
        simp [step]
  | complete i =>
      simp only [step]
      by_cases h : i < s.pending.length
      · rw [dif_pos h]
        have hmem : s.pending[i] ∈ s.pending := List.getElem_mem h
        by_cases hok : s.pending[i].ok = true
        · refine ⟨?_, ?_, ?_⟩
          · intro p hp
            simp only [applyCompletion, hok, if_true, Option.some.injEq] at hp
            simp only [applyCompletion_selected]
            exact ⟨s.pending[i].file, h2 _ hmem, hp.symm⟩
          · intro t ht
            simp only at ht
            simp only [applyCompletion_selected]
            exact h2 t (List.eraseIdx_subset _ i ht)
          · intro hl
            simp [applyCompletion, hok] at hl
        · have hok' : s.pending[i].ok = false := by
            simpa using hok
          refine ⟨?_, ?_, ?_⟩
          · intro p hp
            simp only [applyCompletion, hok'] at hp
            simp only [Bool.false_eq_true, if_false] at hp
            simp only [applyCompletion_selected]
            exact h1 p hp
          · intro t ht
            simp only at ht
            simp only [applyCompletion_selected]
            exact h2 t (List.eraseIdx_subset _ i ht)
          · intro hl
            simp [applyCompletion, hok'] at hl
      · rw [dif_neg h]
        exact ⟨h1, h2, h3⟩
  | clear =>
      refine ⟨?_, ?_, ?_⟩
      · intro p hp
        simp only [step] at hp
        exact absurd hp (by simp)
      · intro t ht
        simp only [step] at ht
        exact h2 t ht
      · intro hl
        simp only [step] at hl
        exact h3 hl

theorem inv_run (evs : List Ev) : Inv (run evs) := by
  suffices h : ∀ (l : List Ev) (s : Sys), Inv s → Inv (l.foldl step s) from
    h evs initSys inv_initSys
  intro l
  induction l with
  | nil => exact fun s hs => hs
  | cons e rest ih => exact fun s hs => ih (step s e) (inv_step s e hs)

/-! ### Claim theorems about the capture controller -/

/-- C1 counterexample: two selections with the second made while the first
encode is still in flight, after which the first encode's completion is
delivered last; the payload finally settled in state is the FIRST file's,
not the second's — `processImage` has no guard discarding a stale
completion. -/
theorem stale_completion_overwrites_newer :
    (run [Ev.select fileA true, Ev.select fileB true,
          Ev.complete 1, Ev.complete 0]).pending = [] ∧
    (run [Ev.select fileA true, Ev.select fileB true,
          Ev.complete 1, Ev.complete 0]).st.imageData = some (mkPayload fileA) ∧
    mkPayload fileA ≠ mkPayload fileB := by
  decide

/-- C1 (amended): whichever encode completion is delivered last wins —
every successful completion, stale or not, overwrites the stored payload
with its own file's payload (and clears `loading`); state never discards a
completion, so the settled payload corresponds to the last-delivered
completion, not necessarily to the most recent selection. -/
theorem completion_overwrites_payload (s : Sys) (i : Nat) (t : EncTask)
    (h : s.pending[i]? = some t) (hok : t.ok = true) :
    (step s (.complete i)).st.imageData = some (mkPayload t.file) ∧
    (step s (.complete i)).st.loading = false := by
  have hlen : i < s.pending.length := by
    by_contra hc
    rw [List.getElem?_eq_none (Nat.le_of_not_lt hc)] at h
    exact Option.noConfusion h
  have ht : s.pending[i] = t := by
    rw [List.getElem?_eq_getElem hlen] at h
    exact Option.some.inj h
  simp [step, dif_pos hlen, applyCompletion, ht, hok]

/-- Witness for the amended C1 in the reachable one-in-flight state. -/
theorem completion_overwrites_payload_witness :
    (step (run [Ev.select fileA true]) (.complete 0)).st.imageData
      = some (mkPayload fileA) :=
  (completion_overwrites_payload (run [Ev.select fileA true]) 0
    { file := fileA, ok := true } (by decide) rfl).1

/-- C2 counterexample: in the reachable Loading state (right after a
selection, encode in flight) the Skip button carries `disabled={loading}`,
so the skip operation is not available there. -/
theorem skip_blocked_while_loading :
    (run [Ev.select fileA true]).st.loading = true ∧
    skipAvailable (run [Ev.select fileA true]).st = false ∧
    skipClick (run [Ev.select fileA true]).st = [] := by
  decide

/-- C2 (amended): the skip operation is available exactly when the
`loading` flag is clear (the Skip button is disabled while an encode is in
flight); when available, clicking it invokes `onSkip` exactly once, and a
skip click never invokes `onSubmit` in any state. -/
theorem skip_when_not_loading (st : UploadState) :
    (st.loading = false → skipAvailable st = true ∧ skipClick st = [Call.skipCall]) ∧
    (st.loading = true → skipClick st = []) ∧
    (∀ p, Call.submitCall p ∉ skipClick st) := by
  refine ⟨fun hl => ?_, fun hl => ?_, fun p => ?_⟩
  · constructor <;> simp [skipAvailable, skipClick, hl]
  · simp [skipAvailable, skipClick, hl]
  · unfold skipClick
    by_cases h : skipAvailable st = true <;> simp [h]

/-- Witness for the amended C2 at the initial state. -/
theorem skip_when_not_loading_witness :
    skipAvailable initState = true ∧ skipClick initState = [Call.skipCall] :=
  (skip_when_not_loading initState).1 rfl

/-- C3 counterexample: (a) after selecting a file, clicking Remove while
the encode is in flight, and then receiving the completion, the encoded
payload is present while the preview reference is absent, falsifying the
"payload iff preview and completed" invariant; (b) after a second
selection whose encode completes first, the first encode is still in
flight while the submit action is already enabled, falsifying "enabled
only when no encode is in flight". -/
theorem payload_without_preview_reachable :
    ((run [Ev.select fileA true, Ev.clear, Ev.complete 0]).st.imageData.isSome = true ∧
     (run [Ev.select fileA true, Ev.clear, Ev.complete 0]).st.preview = none) ∧
    ((run [Ev.select fileA true, Ev.select fileB true, Ev.complete 0]).pending ≠ [] ∧
     submitEnabled (run [Ev.select fileA true, Ev.select fileB true,
        Ev.complete 0]).st = true) := by
  decide

/-- C3 (amended): in every reachable state the submit action is enabled
exactly when the preview reference is present, the encoded payload is
present and the `loading` flag is clear; and any payload present is the
completed successful encode of some previously selected file. (Payload
presence does not imply preview presence, and an enabled submit does not
imply that no encode is in flight.) -/
theorem reachable_submit_invariant (evs : List Ev) :
    (submitEnabled (run evs).st = true ↔
      (run evs).st.preview.isSome = true ∧ (run evs).st.imageData.isSome = true ∧
        (run evs).st.loading = false) ∧
    ∀ p, (run evs).st.imageData = some p →
      ∃ f ∈ (run evs).selected, p = mkPayload f := by
  refine ⟨?_, (inv_run evs).1⟩
  simp [submitEnabled, Bool.and_eq_true, Bool.not_eq_true', and_assoc]

/-- Witness for the amended C3 after one completed selection. -/
theorem reachable_submit_invariant_witness :
    ∃ f ∈ (run [Ev.select fileA true, Ev.complete 0]).selected,
      mkPayload fileA = mkPayload f :=
  (reachable_submit_invariant [Ev.select fileA true, Ev.complete 0]).2
    (mkPayload fileA) (by decide)

/-- C4: `handleSubmit` is a no-op when no payload is stored (no `onSubmit`
call, state untouched), and with a stored payload and no encode in flight
it invokes `onSubmit` exactly once with that payload and changes no
state. -/
theorem confirm_behavior (s : Sys) :
    (s.st.imageData = none → confirmClick s.st = (s.st, [])) ∧
    (∀ p, s.st.imageData = some p → s.pending = [] →
      confirmClick s.st = (s.st, [Call.submitCall p])) := by
  constructor
  · intro h
    simp [confirmClick, h]
  · intro p hp _
    simp [confirmClick, hp]

/-- Witness for C4 in the reachable Ready state after one completed
selection. -/
theorem confirm_behavior_witness :
    confirmClick (run [Ev.select fileA true, Ev.complete 0]).st =
      ((run [Ev.select fileA true, Ev.complete 0]).st,
        [Call.submitCall (mkPayload fileA)]) :=
  (confirm_behavior (run [Ev.select fileA true, Ev.complete 0])).2
    (mkPayload fileA) (by decide) (by decide)

/-- C5 counterexample: a first selection encodes successfully, then a
second selection's encode fails; the `catch` block leaves `imageData`
untouched, so after the failure the FIRST file's payload is still present
and the submit action is enabled — the state is not Empty-equivalent for
submission purposes. -/
theorem failed_encode_leaves_stale_payload :
    (run [Ev.select fileA true, Ev.complete 0,
          Ev.select fileB false, Ev.complete 0]).st.imageData
        = some (mkPayload fileA) ∧
    submitEnabled (run [Ev.select fileA true, Ev.complete 0,
          Ev.select fileB false, Ev.complete 0]).st = true ∧
    (run [Ev.select fileA true, Ev.complete 0,
          Ev.select fileB false, Ev.complete 0]).pending = [] := by
  decide

/-- C5 (amended): a failed encode never propagates: its delivery only
appends to the `console.error` diagnostic channel, clears the `loading`
flag and leaves the preview displayed; the payload slot is left unchanged
— empty if nothing had been stored before the failed selection, but a
payload from an earlier successful selection remains available for
submission. -/
theorem failed_completion_swallowed (s : Sys) (i : Nat) (t : EncTask)
    (h : s.pending[i]? = some t) (hok : t.ok = false) :
    (step s (.complete i)).st.imageData = s.st.imageData ∧
    (step s (.complete i)).st.loading = false ∧
    (step s (.complete i)).st.preview = s.st.preview ∧
    (step s (.complete i)).diag = s.diag ++ ["Failed to process image:"] := by
  have hlen : i < s.pending.length := by
    by_contra hc
    rw [List.getElem?_eq_none (Nat.le_of_not_lt hc)] at h
    exact Option.noConfusion h
  have ht : s.pending[i] = t := by
    rw [List.getElem?_eq_getElem hlen] at h
    exact Option.some.inj h
  simp [step, dif_pos hlen, applyCompletion, ht, hok]

/-- Witness for the amended C5 in the reachable state whose only in-flight
encode fails. -/
theorem failed_completion_swallowed_witness :
    (step (run [Ev.select fileA false]) (.complete 0)).st.imageData = none :=
  (failed_completion_swallowed (run [Ev.select fileA false]) 0
    { file := fileA, ok := false } (by decide) rfl).1

/-- C7 counterexample: with a previous selection completed and a second
selection's encode in flight, preview and payload are both present; a
Remove click there leaves `loading` set, so the resulting state is
distinguishable from the initial Empty state (the spinner still shows and
the in-flight encode is still pending). -/
theorem clear_during_inflight_not_initial :
    (run [Ev.select fileA true, Ev.complete 0,
          Ev.select fileB true]).st.preview.isSome = true ∧
    (run [Ev.select fileA true, Ev.complete 0,
          Ev.select fileB true]).st.imageData.isSome = true ∧
    (step (run [Ev.select fileA true, Ev.complete 0, Ev.select fileB true])
        Ev.clear).st ≠ initState := by
  decide

/-- C7 (amended): from any state with preview and payload present in which
no encode is in flight (`loading` clear), a Remove click resets the
preview, the payload and both file inputs, yielding exactly the initial
Empty component state: the submit action is not enabled and no preview
reference remains. -/
theorem clear_from_ready_yields_initial (s : Sys)
    (_hp : s.st.preview.isSome = true) (_hd : s.st.imageData.isSome = true)
    (hl : s.st.loading = false) :
    (step s .clear).st = initState ∧
    submitEnabled (step s .clear).st = false ∧
    (step s .clear).st.preview = none := by
  refine ⟨?_, ?_, rfl⟩
  · simp [step, initState, hl]
  · simp [step, submitEnabled]

/-- Witness for the amended C7 in the reachable Ready state. -/
theorem clear_from_ready_yields_initial_witness :
    (step (run [Ev.select fileA true, Ev.complete 0]) .clear).st = initState :=
  (clear_from_ready_yields_initial (run [Ev.select fileA true, Ev.complete 0])
    (by decide) (by decide) (by decide)).1

/-- C8: the stored payload's MIME type is `image/jpeg` exactly when the
file declares no content type (`file.type` empty, the falsy case of
`file.type || 'image/jpeg'`), and the declared type otherwise. -/
theorem mimeType_defaulting (f : FileData) :
    (f.type = "" → (mkPayload f).mimeType = "image/jpeg") ∧
    (f.type ≠ "" → (mkPayload f).mimeType = f.type) := by
  constructor <;> intro h <;> simp [mkPayload, h]

/-- Witness for C8: an untyped file defaults, a PNG-typed file keeps its
type. -/
theorem mimeType_defaulting_witness :
    (mkPayload { content := [5], type := "" }).mimeType = "image/jpeg" ∧
    (mkPayload fileA).mimeType = "image/png" :=
  ⟨(mimeType_defaulting { content := [5], type := "" }).1 rfl,
   (mimeType_defaulting fileA).2 (by decide)⟩

/-! ### Claim theorems about the dev-time response logger -/

/-- C9: when building or appending the log entry fails (`appendOk = false`,
e.g. an unwritable log path), the failure is contained in the entry's own
`catch`: the log file is untouched, a message goes to the `console.error`
diagnostic channel, and — for any outcome of the append — the original
`res.end` is still invoked with the same chunk, so the in-flight response
completes unchanged. -/
theorem log_failure_not_blocking (ls : LogState) (r : Res)
    (c : Option (List Nat)) (req : ReqInfo) :
    (wrappedEnd ls r c req false).1.logFile = ls.logFile ∧
    (wrappedEnd ls r c req false).1.diag
      = ls.diag ++ ["Failed to log API response:"] ∧
    ∀ appendOk, (wrappedEnd ls r c req appendOk).2 = origEnd r c := by
  refine ⟨?_, ?_, fun appendOk => ?_⟩ <;>
    cases c <;> simp [wrappedEnd]

theorem runWrappedActs_res (req : ReqInfo) (appendOk : Bool) :
    ∀ (acts : List Act) (ls : LogState) (r : Res),
      (runWrappedActs ls r req appendOk acts).2.1 = (runOrigActs r acts).1 ∧
      (runWrappedActs ls r req appendOk acts).2.2 = (runOrigActs r acts).2
  | [], ls, r => ⟨rfl, rfl⟩
  | .writeA c :: rest, ls, r => by
      have ih := runWrappedActs_res req appendOk rest
        (wrappedWrite ls r c).1 (wrappedWrite ls r c).2.1
      have hw : (wrappedWrite ls r c).2.1 = (origWrite r c).1 := by
        cases c <;> rfl
      have hb : (wrappedWrite ls r c).2.2 = (origWrite r c).2 := by
        cases c <;> rfl
      simp only [runWrappedActs, runOrigActs]
      rw [hw] at ih ⊢
      rw [hb]
      exact ⟨ih.1, by rw [ih.2]⟩
  | .endA c :: rest, ls, r => by
      have ih := runWrappedActs_res req appendOk rest
        (wrappedEnd ls r c req appendOk).1 (wrappedEnd ls r c req appendOk).2
      have he : (wrappedEnd ls r c req appendOk).2 = origEnd r c := by
        cases c <;> simp [wrappedEnd]
      simp only [runWrappedActs, runOrigActs]
      rw [he] at ih
      exact ih

/-- C10: the logger is observationally transparent to the client: for any
request and any sequence of `write`/`end` calls, the response delivered
through the middleware (wrapped or not) is byte-for-byte the response of
the unwrapped methods, with the same return values; and a request outside
the path allowlist is handed to `next()` with nothing wrapped, leaving the
logger state untouched. -/
theorem logger_preserves_response (req : ReqInfo) (ls : LogState) (r : Res)
    (appendOk : Bool) (acts : List Act) :
    (runRequest req ls r appendOk acts).2.1 = (runOrigActs r acts).1 ∧
    (runRequest req ls r appendOk acts).2.2 = (runOrigActs r acts).2 ∧
    (isApiCall req.url = false → (runRequest req ls r appendOk acts).1 = ls) := by
  unfold runRequest
  by_cases h : isApiCall req.url = true
  · rw [if_pos h]
    exact ⟨(runWrappedActs_res req appendOk acts ls r).1,
      (runWrappedActs_res req appendOk acts ls r).2,
      fun hf => absurd h (by simp [hf])⟩
  · rw [if_neg h]
    exact ⟨rfl, rfl, fun _ => rfl⟩

/-- Witness for C10: a non-allowlisted asset request with one write and
one end passes through untouched. -/
theorem logger_preserves_response_witness :
    (runRequest { method := "GET", url := "/assets/app.js" }
        { chunks := [], logFile := [], diag := [] }
        { delivered := [], ended := false, statusCode := 200 } true
        [Act.writeA (some [1, 2]), Act.endA none]).1
      = { chunks := [], logFile := [], diag := [] } :=
  (logger_preserves_response { method := "GET", url := "/assets/app.js" }
    { chunks := [], logFile := [], diag := [] }
    { delivered := [], ended := false, statusCode := 200 } true
    [Act.writeA (some [1, 2]), Act.endA none]).2.2 (by decide)

end Friendo
